import Mathlib

/-!
Verification development for the NeuroBuilder neural-network playground
(`script.js`).  The engine works on dense 2D arrays of JavaScript numbers;
we embed matrices as `List (List ℚ)` (exact arithmetic idealising IEEE
floats) and translate each source function loop-for-loop.  JavaScript's
out-of-range index access (`undefined`) is modelled by the default value of
`List.getD`; all claims carry the shape hypotheses under which the two
semantics agree.  Transcendental scalar functions (`Math.exp`, `Math.tanh`,
`Math.log`, `Math.cos`, `Math.sqrt`) are not rational; activation functions
are therefore carried as abstract scalar-function pairs, and the Box-Muller
kernel of the weight initializer is an abstract parameter `bm` (instantiated
with the real-valued formula where a claim talks about it).
-/

-- ===================== Definitions =====================

/-- Matrices as dense row lists, mirroring the JS nested arrays. -/
abbrev Mat (α : Type) : Type := List (List α)

/-- Read entry `m[i][j]`; out-of-range reads default to `0`
(JS would yield `undefined`; under the shape hypotheses of every claim the
two agree). -/
def idx {α : Type} [Zero α] (m : Mat α) (i j : ℕ) : α :=
  (m.getD i []).getD j 0

/-- Shape predicate: `m` has `r` rows, each of length `c`. -/
def Shaped {α : Type} (m : Mat α) (r c : ℕ) : Prop :=
  m.length = r ∧ ∀ row ∈ m, row.length = c

instance {α : Type} (m : Mat α) (r c : ℕ) : Decidable (Shaped m r c) := by
  unfold Shaped; infer_instance

/-- Helper building an `r × c` matrix from an entry function; this is the
pure translation of the `zeros(r,c)`-then-fill loops used throughout the
source's matrix operations. -/
def mkMat (r c : ℕ) (f : ℕ → ℕ → ℚ) : Mat ℚ :=
  (List.range r).map fun i => (List.range c).map fun j => f i j

/-- Source `zeros(r, c)`: an `r × c` matrix of zeros. -/
def zeros (r c : ℕ) : Mat ℚ :=
  List.replicate r (List.replicate c (0 : ℚ))

/-- Source `dot(a, b)`: matrix product with `r = a.length`,
`c = b[0].length`, `n = b.length`. -/
def dot (a b : Mat ℚ) : Mat ℚ :=
  mkMat a.length (b.headD []).length fun i j =>
    ((List.range b.length).map fun k => idx a i k * idx b k j).sum

/-- Source `addBias(a, b)`: adds the row vector `b[0]` to every row of `a`. -/
def addBias (a b : Mat ℚ) : Mat ℚ :=
  mkMat a.length (a.headD []).length fun i j => idx a i j + idx b 0 j

/-- Source `hadamard(a, b)`: elementwise product, sized by `a`. -/
def hadamard (a b : Mat ℚ) : Mat ℚ :=
  mkMat a.length (a.headD []).length fun i j => idx a i j * idx b i j

/-- Source `transpose(a)`: result is `c × r` with `m[j][i] = a[i][j]`. -/
def transposeM (a : Mat ℚ) : Mat ℚ :=
  mkMat (a.headD []).length a.length fun j i => idx a i j

/-- Activation registry entry: the forward scalar function `f` and its
derivative `df`, the latter expressed in the activation's own output
(as in the source's `Activations` table). -/
structure Activation where
  f : ℚ → ℚ
  df : ℚ → ℚ

/-- Source `Activations.relu`: `f = max(0,x)`, `df(y) = y > 0 ? 1 : 0`. -/
def reluAct : Activation :=
  ⟨fun x => max 0 x, fun y => if 0 < y then 1 else 0⟩

/-- Source `Activations.linear`: `f = x`, `df = 1`. -/
def linearAct : Activation :=
  ⟨fun x => x, fun _ => 1⟩

/-- Source `applyActivation(a, act)`: elementwise `act.f`, sized by `a`. -/
def applyActivation (a : Mat ℚ) (act : Activation) : Mat ℚ :=
  mkMat a.length (a.headD []).length fun i j => act.f (idx a i j)

/-- Source `mse(pred, target)`: returns the pair of the accumulated squared
error divided by the row count, and the gradient matrix with entries
`2*(pred-target)/c` where `c = pred[0].length`. -/
def mse (pred target : Mat ℚ) : ℚ × Mat ℚ :=
  let r := pred.length
  let c := (pred.headD []).length
  let sum : ℚ :=
    ((List.range r).map fun i =>
      ((List.range c).map fun j =>
        (idx pred i j - idx target i j) * (idx pred i j - idx target i j)).sum).sum
  (sum / r, mkMat r c fun i j => 2 * (idx pred i j - idx target i j) / c)

/-- Update a list by an index-aware function, starting at index `i0`; this is
the pure rendering of the source's in-place `for` update loops. -/
def updListIdx {α : Type} (g : ℕ → α → α) : ℕ → List α → List α
  | _, [] => []
  | i, a :: as => g i a :: updListIdx g (i + 1) as

/-- Dense layer state as in the source class: declared widths, activation
name, bias flag, weight matrix, optional bias row, and the input/output
caches written by `forward` (empty before any forward call). The unused
`this.Z` cache is omitted since no other code reads it. -/
structure DenseLayer where
  inSize : ℕ
  outSize : ℕ
  activation : String
  useBias : Bool
  W : Mat ℚ
  b : Option (Mat ℚ)
  X : Mat ℚ := []
  A : Mat ℚ := []
deriving DecidableEq

/-- Well-formed layer: weight matrix of the declared shape with at least one
input, and a bias row present exactly when the bias flag is enabled. -/
def wfLayer (L : DenseLayer) : Prop :=
  Shaped L.W L.inSize L.outSize ∧ 1 ≤ L.inSize ∧
    (L.useBias = true → L.b ≠ none ∧ Shaped (L.b.getD []) 1 L.outSize) ∧
    (L.useBias = false → L.b = none)

instance (L : DenseLayer) : Decidable (wfLayer L) := by
  unfold wfLayer; infer_instance

/-- Source `DenseLayer.forward(X)`: computes `addBias(dot(X, W), bias-or-zeros)`,
applies the activation elementwise, caches `X` and the output, and returns
the output. The activation registry is a parameter `acts` resolving the
stored activation name (the source's `Activations[this.activation]`). -/
def DenseLayer.forward (acts : String → Activation) (L : DenseLayer) (X : Mat ℚ) :
    DenseLayer × Mat ℚ :=
  let Zlin := addBias (dot X L.W) (if L.useBias then L.b.getD [] else zeros 1 L.outSize)
  let A := applyActivation Zlin (acts L.activation)
  ({ L with X := X, A := A }, A)

/-- Source `DenseLayer.backward(dA, lr)`: computes
`dZ = hadamard(dA, A.map(df))`, `dW = dot(transpose(X), dZ)`, the bias
column sums when enabled, `dX = dot(dZ, transpose(W))` (from the
pre-update `W`), then updates `W` and `b` in place dividing by
`r = A.length`, and returns `dX`. -/
def DenseLayer.backward (acts : String → Activation) (L : DenseLayer) (dA : Mat ℚ)
    (lr : ℚ) : DenseLayer × Mat ℚ :=
  let act := acts L.activation
  let r : ℕ := L.A.length
  let c : ℕ := (L.A.headD []).length
  let dZ := hadamard dA (L.A.map fun row => row.map act.df)
  let Xt := transposeM L.X
  let dW := dot Xt dZ
  let dBrow : List ℚ := (List.range c).map fun j => (dZ.map fun row => row.getD j 0).sum
  let Wt := transposeM L.W
  let dX := dot dZ Wt
  let wcols := (L.W.headD []).length
  let W' := updListIdx (fun i row =>
      updListIdx (fun j w => if j < wcols then w - lr * idx dW i j / r else w) 0 row)
    0 L.W
  let b' : Option (Mat ℚ) :=
    if L.useBias then
      L.b.map fun bmat =>
        updListIdx (fun ri row =>
          if ri = 0 then
            updListIdx (fun j x =>
              if j < (bmat.headD []).length then x - lr * dBrow.getD j 0 / r else x) 0 row
          else row) 0 bmat
    else L.b
  ({ L with W := W', b := b' }, dX)

/-- Forward pass immediately followed by backward, as in one training step. -/
def fwdThenBack (acts : String → Activation) (L : DenseLayer) (X dA : Mat ℚ)
    (lr : ℚ) : DenseLayer × Mat ℚ :=
  DenseLayer.backward acts (DenseLayer.forward acts L X).1 dA lr

/-- Pre-activation gradient entry `gradPreActivation[i][j]`: the upstream
gradient times the activation derivative evaluated at the cached output. -/
def gradZ (acts : String → Activation) (L : DenseLayer) (X dA : Mat ℚ)
    (i j : ℕ) : ℚ :=
  idx dA i j * (acts L.activation).df (idx (DenseLayer.forward acts L X).2 i j)

/-- Source `Network.forward(X)`: runs each layer's `forward` in order, each
layer's output feeding the next layer's input; returns the updated layers
(with their new caches) and the final output. -/
def networkForward (acts : String → Activation) :
    List DenseLayer → Mat ℚ → List DenseLayer × Mat ℚ
  | [], X => ([], X)
  | L :: rest, X =>
    let s := DenseLayer.forward acts L X
    let r := networkForward acts rest s.2
    (s.1 :: r.1, r.2)

/-- Chain consistency of a layer list against an incoming width: every layer
is well formed and its input width equals the running output width. -/
def chainOK : ℕ → List DenseLayer → Prop
  | _, [] => True
  | n, L :: rest => L.inSize = n ∧ wfLayer L ∧ chainOK L.outSize rest

def chainOKDec : (n : ℕ) → (ls : List DenseLayer) → Decidable (chainOK n ls)
  | _, [] => isTrue trivial
  | n, L :: rest =>
    letI : Decidable (chainOK L.outSize rest) := chainOKDec L.outSize rest
    inferInstanceAs (Decidable (L.inSize = n ∧ wfLayer L ∧ chainOK L.outSize rest))

instance (n : ℕ) (ls : List DenseLayer) : Decidable (chainOK n ls) :=
  chainOKDec n ls

/-- Output width of the final layer (the incoming width for an empty list). -/
def lastWidth (n : ℕ) (ls : List DenseLayer) : ℕ :=
  ls.getLast?.elim n (·.outSize)


/-- One step of the source's xorshift32 `rng` state update:
`s ^= s << 13; s ^= s >>> 17; s ^= s << 5; s >>>= 0`, in 32-bit
wrap-around arithmetic. -/
def xorshiftStep (s : ℕ) : ℕ :=
  let a := (s ^^^ (s <<< 13)) % 2 ^ 32
  let b := a ^^^ (a >>> 17)
  (b ^^^ (b <<< 5)) % 2 ^ 32

/-- Internal state of `rng(seed)` after `n` update steps
(`seed >>> 0` truncates the seed to 32 bits). -/
def rngState (seed : ℕ) : ℕ → ℕ
  | 0 => seed % 2 ^ 32
  | n + 1 => xorshiftStep (rngState seed n)

/-- The `n`-th value returned by the source `rng(seed)` closure: the state
is advanced first, then `(s % 1_000_000) / 1_000_000` is returned. -/
def rngOut (seed : ℕ) (n : ℕ) : ℚ :=
  ((rngState seed (n + 1)) % 1000000 : ℕ) / 1000000

/-- A random source: a stream of draws together with the guarantee that a
nonzero draw eventually appears after every position (exactly the condition
under which the source's `while (u === 0) u = rand()` re-sampling loops
terminate). -/
structure RandSource where
  s : ℕ → ℚ
  nz : ∀ n, ∃ m, s (n + m) ≠ 0

/-- Draw from position `p` until a nonzero value appears, returning the
next position and the value drawn (the source's `while (u === 0)` loop). -/
def RandSource.pick (src : RandSource) (p : ℕ) : ℕ × ℚ :=
  let k := Nat.find (src.nz p)
  (p + k + 1, src.s (p + k))

/-- Generate `n` Gaussian entries starting at stream position `p`: two
nonzero uniform draws per entry, combined by the Box-Muller kernel `bm`
(mathematically `sqrt(-2 ln u) * cos(2π v)`) and scaled by `0.1`; returns
the entries and the next stream position. -/
def genEntries {α : Type} [DivisionRing α] (bm : ℚ → ℚ → α) (src : RandSource) :
    ℕ → ℕ → List α × ℕ
  | 0, p => ([], p)
  | n + 1, p =>
    let pu := src.pick p
    let pv := src.pick pu.1
    let rest := genEntries bm src n pv.1
    (bm pu.2 pv.2 * (1 / 10) :: rest.1, rest.2)

/-- Generate `n` rows of `c` entries each, threading the stream position in
row-major order as the source's nested fill loops do. -/
def genRows {α : Type} [DivisionRing α] (bm : ℚ → ℚ → α) (src : RandSource)
    (c : ℕ) : ℕ → ℕ → Mat α
  | 0, _ => []
  | n + 1, p =>
    let row := genEntries bm src c p
    row.1 :: genRows bm src c n row.2

/-- Source `randn(r, c, rand)` with the Box-Muller kernel abstracted as
`bm` (it is transcendental, hence not expressible over ℚ). -/
def randn {α : Type} [DivisionRing α] (r c : ℕ) (src : RandSource)
    (bm : ℚ → ℚ → α) : Mat α :=
  genRows bm src c r 0

/-- The Box-Muller kernel over the reals, as written in the source:
`Math.sqrt(-2 * Math.log(u)) * Math.cos(2 * Math.PI * v)`. -/
noncomputable def boxMullerR (u v : ℚ) : ℝ :=
  Real.sqrt (-2 * Real.log u) * Real.cos (2 * Real.pi * v)

/-- Constant random source used by the C9 witness. -/
def halfSource : RandSource :=
  ⟨fun _ => 1 / 2, fun _ => ⟨0, by norm_num⟩⟩

/-- Events of one training run at the granularity of the loop's synchronous
units: processing one batch (forward, loss gradient, backward — the batch
body contains no suspension point, so it is atomic), and the full-dataset
evaluation closing an epoch. -/
inductive TrainEv where
  | batchStep (ep bIdx : ℕ)
  | epochEval (ep : ℕ)
deriving DecidableEq

/-- Trace of `trainLoop` from epoch `ep` with `rem` epochs remaining:
process all batches of the epoch, run the epoch evaluation, then — at the
epoch boundary, the only suspension point — consult the cancellation flag
(`flag ep` = the value of `stopFlag` observed at epoch `ep`'s check) and
either stop or continue. -/
def trainTraceFrom (nBatches : ℕ) (flag : ℕ → Bool) : ℕ → ℕ → List TrainEv
  | _, 0 => []
  | ep, rem + 1 =>
    ((List.range nBatches).map fun b => TrainEv.batchStep ep b) ++
      TrainEv.epochEval ep ::
        (if flag ep then [] else trainTraceFrom nBatches flag (ep + 1) rem)

/-- Trace of the source `trainLoop`: epochs run from `1` to `epochs`. -/
def trainTrace (epochs nBatches : ℕ) (flag : ℕ → Bool) : List TrainEv :=
  trainTraceFrom nBatches flag 1 epochs

/-- Concrete cancellation schedule for the C4 witness: the flag is observed
set at the end of epoch 2. -/
def flagC : ℕ → Bool := fun ep => ep == 2

/-- Concrete activation registry used for witnesses: every name resolves to
the linear activation. -/
def acts0 : String → Activation := fun _ => linearAct

/-- Concrete 1-input 1-output linear layer with bias, used for witnesses. -/
def wL0 : DenseLayer :=
  ⟨1, 1, "linear", true, [[3]], some [[5]], [], []⟩

/-- C2 — the loss value claimed by the spec: mean over rows of the per-row
sum over columns of squared errors. -/
def mseLossSpec (pred target : Mat ℚ) (bs ow : ℕ) : ℚ :=
  (((List.range bs).map fun i =>
    ((List.range ow).map fun j =>
      (idx pred i j - idx target i j) ^ 2).sum).sum) / bs

-- ===================== Helper lemmas =====================

lemma getD_range_map {α : Type} (f : ℕ → α) (r i : ℕ) (d : α) (hi : i < r) :
    ((List.range r).map f).getD i d = f i := by
  rw [List.getD_eq_getElem _ _ (by simpa using hi)]
  simp

lemma mkMat_idx (r c : ℕ) (f : ℕ → ℕ → ℚ) (i j : ℕ) (hi : i < r) (hj : j < c) :
    idx (mkMat r c f) i j = f i j := by
  unfold idx mkMat
  rw [getD_range_map _ r i [] hi, getD_range_map _ c j 0 hj]

lemma mkMat_shaped (r c : ℕ) (f : ℕ → ℕ → ℚ) : Shaped (mkMat r c f) r c := by
  constructor
  · simp [mkMat]
  · intro row hrow
    simp only [mkMat, List.mem_map] at hrow
    obtain ⟨i, _, rfl⟩ := hrow
    simp

lemma mkMat_length (r c : ℕ) (f : ℕ → ℕ → ℚ) : (mkMat r c f).length = r := by
  simp [mkMat]

lemma Shaped.headD_length {α : Type} {m : Mat α} {r c : ℕ}
    (h : Shaped m r c) (hr : 1 ≤ r) : (m.headD []).length = c := by
  obtain ⟨hlen, hrow⟩ := h
  cases m with
  | nil => simp at hlen; omega
  | cons a l => exact hrow a (by simp)

lemma Shaped.row_length {α : Type} {m : Mat α} {r c i : ℕ}
    (h : Shaped m r c) (hi : i < r) : (m.getD i []).length = c := by
  obtain ⟨hlen, hrow⟩ := h
  have hi' : i < m.length := by omega
  rw [List.getD_eq_getElem _ _ hi']
  exact hrow _ (List.getElem_mem hi')

lemma updListIdx_length {α : Type} (g : ℕ → α → α) (i0 : ℕ) (l : List α) :
    (updListIdx g i0 l).length = l.length := by
  induction l generalizing i0 with
  | nil => rfl
  | cons a as ih => simp [updListIdx, ih]

lemma updListIdx_getD {α : Type} (g : ℕ → α → α) (l : List α) (i0 i : ℕ) (d : α)
    (hi : i < l.length) :
    (updListIdx g i0 l).getD i d = g (i0 + i) (l.getD i d) := by
  induction l generalizing i0 i with
  | nil => simp at hi
  | cons a as ih =>
    cases i with
    | zero => simp [updListIdx]
    | succ n =>
      have hn : n < as.length := by simpa using hi
      simp only [updListIdx, List.getD_cons_succ]
      rw [ih (i0 + 1) n hn]
      ring_nf

lemma sum_range_congr (n : ℕ) (f g : ℕ → ℚ) (h : ∀ k, k < n → f k = g k) :
    ((List.range n).map f).sum = ((List.range n).map g).sum := by
  have he : (List.range n).map f = (List.range n).map g :=
    List.map_congr_left fun k hk => h k (List.mem_range.mp hk)
  rw [he]

lemma map_getD_mkMat (r c : ℕ) (f : ℕ → ℕ → ℚ) (j : ℕ) (hj : j < c) :
    (mkMat r c f).map (fun row => row.getD j 0) = (List.range r).map fun i => f i j := by
  unfold mkMat
  rw [List.map_map]
  apply List.map_congr_left
  intro i _
  simp only [Function.comp]
  exact getD_range_map (fun j => f i j) c j 0 hj

lemma idx_map_map (phi : ℚ → ℚ) (m : Mat ℚ) (r c i j : ℕ)
    (hm : Shaped m r c) (hi : i < r) (hj : j < c) :
    idx (m.map fun row => row.map phi) i j = phi (idx m i j) := by
  have hi' : i < m.length := hm.1 ▸ hi
  have hrow : (m.getD i []).length = c := hm.row_length hi
  unfold idx
  have h1 : (m.map fun row => row.map phi).getD i [] = (m.getD i []).map phi := by
    rw [List.getD_eq_getElem _ _ (by simpa using hi'), List.getElem_map,
      List.getD_eq_getElem _ _ hi']
  rw [h1, List.getD_eq_getElem _ _ (by rw [List.length_map, hrow]; exact hj),
    List.getElem_map]
  exact congrArg phi (List.getD_eq_getElem _ _ (by rw [hrow]; exact hj)).symm

lemma dot_idx (a b : Mat ℚ) (i j : ℕ) (hi : i < a.length)
    (hj : j < (b.headD []).length) :
    idx (dot a b) i j =
      ((List.range b.length).map fun k => idx a i k * idx b k j).sum :=
  mkMat_idx _ _ _ i j hi hj

lemma transposeM_idx (a : Mat ℚ) (i j : ℕ) (hi : i < (a.headD []).length)
    (hj : j < a.length) :
    idx (transposeM a) i j = idx a j i :=
  mkMat_idx _ _ _ i j hi hj

lemma transposeM_length (a : Mat ℚ) : (transposeM a).length = (a.headD []).length :=
  mkMat_length _ _ _

lemma hadamard_idx (a b : Mat ℚ) (i j : ℕ) (hi : i < a.length)
    (hj : j < (a.headD []).length) :
    idx (hadamard a b) i j = idx a i j * idx b i j :=
  mkMat_idx _ _ _ i j hi hj

lemma hadamard_length (a b : Mat ℚ) : (hadamard a b).length = a.length :=
  mkMat_length _ _ _

lemma dot_shaped (a b : Mat ℚ) (r c : ℕ) (ha : a.length = r)
    (hb : (b.headD []).length = c) : Shaped (dot a b) r c := by
  subst ha hb; exact mkMat_shaped _ _ _

lemma addBias_shaped (a b : Mat ℚ) (r c : ℕ) (ha : Shaped a r c) (hr : 1 ≤ r) :
    Shaped (addBias a b) r c := by
  unfold addBias
  rw [ha.1, ha.headD_length hr]
  exact mkMat_shaped _ _ _

lemma applyActivation_shaped (a : Mat ℚ) (act : Activation) (r c : ℕ)
    (ha : Shaped a r c) (hr : 1 ≤ r) : Shaped (applyActivation a act) r c := by
  unfold applyActivation
  rw [ha.1, ha.headD_length hr]
  exact mkMat_shaped _ _ _

lemma hadamard_shaped (a b : Mat ℚ) (r c : ℕ) (ha : Shaped a r c) (hr : 1 ≤ r) :
    Shaped (hadamard a b) r c := by
  unfold hadamard
  rw [ha.1, ha.headD_length hr]
  exact mkMat_shaped _ _ _

lemma transposeM_shaped (a : Mat ℚ) (r c : ℕ) (ha : Shaped a r c) (hr : 1 ≤ r) :
    Shaped (transposeM a) c r := by
  unfold transposeM
  rw [ha.headD_length hr, ha.1]
  exact mkMat_shaped _ _ _

lemma map_getD_hadamard (a b : Mat ℚ) (r c j : ℕ) (ha : Shaped a r c)
    (hr : 1 ≤ r) (hj : j < c) :
    ((hadamard a b).map fun row => row.getD j 0) =
      (List.range r).map fun k => idx a k j * idx b k j := by
  unfold hadamard
  rw [ha.1, ha.headD_length hr]
  exact map_getD_mkMat r c _ j hj

lemma updMat_idx (F : ℕ → ℕ → ℚ → ℚ) (m : Mat ℚ) (r c i j : ℕ)
    (hm : Shaped m r c) (hi : i < r) (hj : j < c) :
    idx (updListIdx (fun i row => updListIdx (fun j w => F i j w) 0 row) 0 m) i j
      = F i j (idx m i j) := by
  unfold idx
  rw [updListIdx_getD _ m 0 i [] (by rw [hm.1]; exact hi)]
  simp only [Nat.zero_add]
  rw [updListIdx_getD _ (m.getD i []) 0 j 0 (by rw [hm.row_length hi]; exact hj)]
  simp only [Nat.zero_add]

lemma fwdThenBack_W (acts : String → Activation) (L : DenseLayer) (X dA : Mat ℚ)
    (lr : ℚ) :
    (fwdThenBack acts L X dA lr).1.W =
      updListIdx (fun i row => updListIdx (fun j w =>
        if j < (L.W.headD []).length then
          w - lr * idx (dot (transposeM X)
              (hadamard dA (((DenseLayer.forward acts L X).2).map
                fun row => row.map (acts L.activation).df))) i j
            / (((DenseLayer.forward acts L X).2).length : ℚ)
        else w) 0 row) 0 L.W := rfl

lemma fwdThenBack_b (acts : String → Activation) (L : DenseLayer) (X dA : Mat ℚ)
    (lr : ℚ) :
    (fwdThenBack acts L X dA lr).1.b =
      (if L.useBias then
        L.b.map fun bmat => updListIdx (fun ri row =>
          if ri = 0 then updListIdx (fun j x =>
            if j < (bmat.headD []).length then
              x - lr * (((List.range ((((DenseLayer.forward acts L X).2).headD []).length)).map
                fun j => ((hadamard dA (((DenseLayer.forward acts L X).2).map
                  fun row => row.map (acts L.activation).df)).map
                    fun row => row.getD j 0).sum).getD j 0)
                / (((DenseLayer.forward acts L X).2).length : ℚ)
            else x) 0 row
          else row) 0 bmat
      else L.b) := rfl

lemma fwdThenBack_dX (acts : String → Activation) (L : DenseLayer) (X dA : Mat ℚ)
    (lr : ℚ) :
    (fwdThenBack acts L X dA lr).2 =
      dot (hadamard dA (((DenseLayer.forward acts L X).2).map
        fun row => row.map (acts L.activation).df)) (transposeM L.W) := rfl

lemma forward_out_shaped (acts : String → Activation) (L : DenseLayer) (X : Mat ℚ)
    (bs : ℕ) (hW : Shaped L.W L.inSize L.outSize) (hin : 1 ≤ L.inSize)
    (hX : Shaped X bs L.inSize) (hbs : 1 ≤ bs) :
    Shaped (DenseLayer.forward acts L X).2 bs L.outSize := by
  have h1 : Shaped (dot X L.W) bs L.outSize :=
    dot_shaped _ _ _ _ hX.1 (hW.headD_length hin)
  have h2 : Shaped (addBias (dot X L.W)
      (if L.useBias then L.b.getD [] else zeros 1 L.outSize)) bs L.outSize :=
    addBias_shaped _ _ _ _ h1 hbs
  exact applyActivation_shaped _ _ _ _ h2 hbs

lemma lastWidth_cons (n : ℕ) (L : DenseLayer) (rest : List DenseLayer) :
    lastWidth n (L :: rest) = lastWidth L.outSize rest := by
  cases rest with
  | nil => simp [lastWidth]
  | cons M rs =>
    unfold lastWidth
    rw [List.getLast?_cons_cons]
    cases h : (M :: rs).getLast? with
    | none => exact absurd (List.getLast?_eq_none_iff.mp h) (by simp)
    | some x => rfl

lemma mem_ttf_batch (nB : ℕ) (flag : ℕ → Bool) (rem e0 ep b : ℕ) :
    TrainEv.batchStep ep b ∈ trainTraceFrom nB flag e0 rem ↔
      (e0 ≤ ep ∧ ep < e0 + rem ∧ b < nB ∧
        ∀ k, e0 ≤ k → k < ep → flag k = false) := by
  induction rem generalizing e0 with
  | zero =>
    simp only [trainTraceFrom, List.not_mem_nil, false_iff]
    rintro ⟨_, h2, _⟩
    omega
  | succ m ih =>
    simp only [trainTraceFrom, List.mem_append, List.mem_cons, List.mem_map,
      List.mem_range]
    constructor
    · rintro (⟨b', hb', heq⟩ | heq | hmem)
      · cases heq
        exact ⟨le_refl _, by omega, hb', fun k hk1 hk2 => absurd hk1 (by omega)⟩
      · cases heq
      · by_cases hf : flag e0 = true
        · simp [hf] at hmem
        · rw [if_neg hf] at hmem
          obtain ⟨h1, h2, h3, h4⟩ := (ih (e0 + 1)).mp hmem
          refine ⟨by omega, by omega, h3, fun k hk1 hk2 => ?_⟩
          rcases Nat.eq_or_lt_of_le hk1 with heq | hlt
          · subst heq
            simpa using hf
          · exact h4 k (by omega) hk2
    · rintro ⟨h1, h2, h3, h4⟩
      rcases Nat.eq_or_lt_of_le h1 with heq | hlt
      · exact Or.inl ⟨b, h3, by rw [heq]⟩
      · have hf0 : flag e0 = false := h4 e0 le_rfl hlt
        refine Or.inr (Or.inr ?_)
        rw [if_neg (by simp [hf0])]
        exact (ih (e0 + 1)).mpr ⟨by omega, by omega, h3,
          fun k hk1 hk2 => h4 k (by omega) hk2⟩

lemma mem_ttf_eval (nB : ℕ) (flag : ℕ → Bool) (rem e0 ep : ℕ) :
    TrainEv.epochEval ep ∈ trainTraceFrom nB flag e0 rem ↔
      (e0 ≤ ep ∧ ep < e0 + rem ∧
        ∀ k, e0 ≤ k → k < ep → flag k = false) := by
  induction rem generalizing e0 with
  | zero =>
    simp only [trainTraceFrom, List.not_mem_nil, false_iff]
    rintro ⟨_, h2, _⟩
    omega
  | succ m ih =>
    simp only [trainTraceFrom, List.mem_append, List.mem_cons, List.mem_map,
      List.mem_range]
    constructor
    · rintro (⟨b', _, heq⟩ | heq | hmem)
      · cases heq
      · cases heq
        exact ⟨le_refl _, by omega, fun k hk1 hk2 => absurd hk1 (by omega)⟩
      · by_cases hf : flag e0 = true
        · simp [hf] at hmem
        · rw [if_neg hf] at hmem
          obtain ⟨h1, h2, h4⟩ := (ih (e0 + 1)).mp hmem
          refine ⟨by omega, by omega, fun k hk1 hk2 => ?_⟩
          rcases Nat.eq_or_lt_of_le hk1 with heq | hlt
          · subst heq
            simpa using hf
          · exact h4 k (by omega) hk2
    · rintro ⟨h1, h2, h4⟩
      rcases Nat.eq_or_lt_of_le h1 with heq | hlt
      · exact Or.inr (Or.inl (by rw [heq]))
      · have hf0 : flag e0 = false := h4 e0 le_rfl hlt
        refine Or.inr (Or.inr ?_)
        rw [if_neg (by simp [hf0])]
        exact (ih (e0 + 1)).mpr ⟨by omega, by omega,
          fun k hk1 hk2 => h4 k (by omega) hk2⟩


lemma sr_xor (a b n : ℕ) : (a ^^^ b) >>> n = (a >>> n) ^^^ (b >>> n) := by
  apply Nat.eq_of_testBit_eq
  intro i
  simp [Nat.testBit_shiftRight, Nat.testBit_xor]

lemma shiftRight34_eq_zero (a : ℕ) (ha : a < 2 ^ 32) : a >>> 17 >>> 17 = 0 := by
  rw [← Nat.shiftRight_add, Nat.shiftRight_eq_div_pow]
  exact Nat.div_eq_of_lt (lt_of_lt_of_le ha (by norm_num))

lemma xsr_cancel (a : ℕ) (ha : a < 2 ^ 32) :
    (a ^^^ (a >>> 17)) ^^^ ((a ^^^ (a >>> 17)) >>> 17) = a := by
  rw [sr_xor, shiftRight34_eq_zero a ha, Nat.xor_zero]
  rw [Nat.xor_assoc, Nat.xor_self, Nat.xor_zero]

lemma xsr_inj (a1 a2 : ℕ) (h1 : a1 < 2 ^ 32) (h2 : a2 < 2 ^ 32)
    (heq : a1 ^^^ (a1 >>> 17) = a2 ^^^ (a2 >>> 17)) : a1 = a2 := by
  have := congrArg (fun z => z ^^^ (z >>> 17)) heq
  simp only at this
  rwa [xsr_cancel a1 h1, xsr_cancel a2 h2] at this

lemma xsl_inj (k : ℕ) (hk : 0 < k) (x1 x2 : ℕ) (h1 : x1 < 2 ^ 32)
    (h2 : x2 < 2 ^ 32)
    (heq : (x1 ^^^ (x1 <<< k)) % 2 ^ 32 = (x2 ^^^ (x2 <<< k)) % 2 ^ 32) :
    x1 = x2 := by
  apply Nat.eq_of_testBit_eq
  intro i
  induction i using Nat.strong_induction_on with
  | _ i ih =>
    by_cases hi : i < 32
    · have hbit := congrArg (fun z => Nat.testBit z i) heq
      have hd32 : decide (i < 32) = true := decide_eq_true hi
      simp only [Nat.testBit_mod_two_pow, Nat.testBit_xor, Nat.testBit_shiftLeft,
        hd32, Bool.true_and] at hbit
      by_cases hki : k ≤ i
      · have ihk : x1.testBit (i - k) = x2.testBit (i - k) := ih (i - k) (by omega)
        have hdk : decide (k ≤ i) = true := decide_eq_true hki
        simp only [hdk, Bool.true_and, ihk] at hbit
        revert hbit
        cases hb1 : x1.testBit i <;> cases hb2 : x2.testBit i <;>
          cases hb3 : x2.testBit (i - k) <;> simp
      · have hdk : decide (k ≤ i) = false := decide_eq_false hki
        simp only [hdk, Bool.false_and, Bool.xor_false] at hbit
        exact hbit
    · rw [Nat.testBit_eq_false_of_lt
          (lt_of_lt_of_le h1 (Nat.pow_le_pow_right (by norm_num) (by omega))),
        Nat.testBit_eq_false_of_lt
          (lt_of_lt_of_le h2 (Nat.pow_le_pow_right (by norm_num) (by omega)))]

lemma xorshiftStep_lt (s : ℕ) : xorshiftStep s < 2 ^ 32 := by
  unfold xorshiftStep
  exact Nat.mod_lt _ (by norm_num)

lemma xorshiftStep_inj (s1 s2 : ℕ) (h1 : s1 < 2 ^ 32) (h2 : s2 < 2 ^ 32)
    (heq : xorshiftStep s1 = xorshiftStep s2) : s1 = s2 := by
  unfold xorshiftStep at heq
  have ha1 : (s1 ^^^ (s1 <<< 13)) % 2 ^ 32 < 2 ^ 32 := Nat.mod_lt _ (by norm_num)
  have ha2 : (s2 ^^^ (s2 <<< 13)) % 2 ^ 32 < 2 ^ 32 := Nat.mod_lt _ (by norm_num)
  have hsr : ∀ x : ℕ, x >>> 17 ≤ x := fun x => by
    rw [Nat.shiftRight_eq_div_pow]
    exact Nat.div_le_self _ _
  have hb1 : ((s1 ^^^ (s1 <<< 13)) % 2 ^ 32) ^^^
      (((s1 ^^^ (s1 <<< 13)) % 2 ^ 32) >>> 17) < 2 ^ 32 :=
    Nat.xor_lt_two_pow ha1 (lt_of_le_of_lt (hsr _) ha1)
  have hb2 : ((s2 ^^^ (s2 <<< 13)) % 2 ^ 32) ^^^
      (((s2 ^^^ (s2 <<< 13)) % 2 ^ 32) >>> 17) < 2 ^ 32 :=
    Nat.xor_lt_two_pow ha2 (lt_of_le_of_lt (hsr _) ha2)
  have hb := xsl_inj 5 (by norm_num) _ _ hb1 hb2 heq
  have ha := xsr_inj _ _ ha1 ha2 hb
  exact xsl_inj 13 (by norm_num) _ _ h1 h2 ha

lemma rngState_lt (seed n : ℕ) : rngState seed n < 2 ^ 32 := by
  cases n with
  | zero => exact Nat.mod_lt _ (by norm_num)
  | succ m => exact xorshiftStep_lt _

lemma rngState_cancel (i T : ℕ)
    (h : rngState 42 (i + T) = rngState 42 i) :
    rngState 42 T = rngState 42 0 := by
  induction i with
  | zero => simpa using h
  | succ m ih =>
    apply ih
    have h1 : rngState 42 (m + 1 + T) = xorshiftStep (rngState 42 (m + T)) := by
      rw [show m + 1 + T = (m + T) + 1 by omega]
      rfl
    have h2 : rngState 42 (m + 1) = xorshiftStep (rngState 42 m) := rfl
    rw [h1, h2] at h
    exact xorshiftStep_inj _ _ (rngState_lt 42 (m + T)) (rngState_lt 42 m) h

lemma rng42_exists_period : ∃ T, 0 < T ∧ rngState 42 T = rngState 42 0 := by
  obtain ⟨i, j, hne, heq⟩ := Finite.exists_ne_map_eq_of_infinite
    (fun n => (⟨rngState 42 n, rngState_lt 42 n⟩ : Fin (2 ^ 32)))
  have hval : rngState 42 i = rngState 42 j := congrArg Fin.val heq
  rcases Nat.lt_or_ge i j with hij | hij
  · refine ⟨j - i, by omega, ?_⟩
    apply rngState_cancel i
    rw [show i + (j - i) = j by omega]
    exact hval.symm
  · have hij' : j < i := by
      rcases Nat.eq_or_lt_of_le hij with he | hl
      · exact absurd (by omega : i = j) hne
      · omega
    refine ⟨i - j, by omega, ?_⟩
    apply rngState_cancel j
    rw [show j + (i - j) = i by omega]
    exact hval

lemma rngState_add_period (T : ℕ) (hT : rngState 42 T = rngState 42 0) :
    ∀ n, rngState 42 (n + T) = rngState 42 n := by
  intro n
  induction n with
  | zero => simpa using hT
  | succ m ih =>
    have h1 : rngState 42 (m + 1 + T) = xorshiftStep (rngState 42 (m + T)) := by
      rw [show m + 1 + T = (m + T) + 1 by omega]
      rfl
    rw [h1, ih]
    rfl

lemma rngOut_mul_period (T : ℕ) (hT : rngState 42 T = rngState 42 0) (q : ℕ) :
    rngOut 42 (q * T) = rngOut 42 0 := by
  have hs : rngState 42 (q * T + 1) = rngState 42 (0 + 1) := by
    induction q with
    | zero => norm_num
    | succ m ih =>
      rw [Nat.succ_mul, show m * T + T + 1 = (m * T + 1) + T by omega,
        rngState_add_period T hT]
      exact ih
  unfold rngOut
  rw [hs]

lemma rngOut42_zero_ne : rngOut 42 0 ≠ 0 := by
  unfold rngOut
  have h : rngState 42 (0 + 1) % 1000000 = 355432 := by decide
  rw [h]
  norm_num


/-- The `rng(42)` closure as a random source (placed after the preceding
lemmas because its termination guarantee is exactly what they prove:
xorshift32 is injective on 32-bit states, hence the output stream from seed
42 is periodic and its nonzero first output recurs after every position). -/
def rng42 : RandSource where
  s := rngOut 42
  nz := by
    intro n
    obtain ⟨T, hT0, hTeq⟩ := rng42_exists_period
    have hmul : (n + 1) * 1 ≤ (n + 1) * T := Nat.mul_le_mul_left _ hT0
    refine ⟨(n + 1) * T - n, ?_⟩
    rw [show n + ((n + 1) * T - n) = (n + 1) * T by omega,
      rngOut_mul_period T hTeq (n + 1)]
    exact rngOut42_zero_ne

/-- Architecture record as kept in the source's `arch` array (the DOM id is
presentation glue and omitted): `{type, neurons, activation, bias}`, with
`activation`/`bias` possibly absent (input records). -/
structure ArchRecord where
  type : String
  neurons : ℕ
  activation : Option String
  bias : Option Bool
deriving DecidableEq

/-- JS `a || d` on an optional string (both `undefined`/`null` and the empty
string are falsy). -/
def jsOrStr (o : Option String) (d : String) : String :=
  match o with
  | some a => if a = "" then d else a
  | none => d

/-- Source `DenseLayer` constructor: `randn` weights from the given random
source, an all-zero bias row exactly when bias is enabled. -/
def mkDenseLayer (inputSize outputSize : ℕ) (activation : String)
    (useBias : Bool) (src : RandSource) (bm : ℚ → ℚ → ℚ) : DenseLayer :=
  { inSize := inputSize, outSize := outputSize, activation := activation,
    useBias := useBias, W := randn inputSize outputSize src bm,
    b := if useBias then some (zeros 1 outputSize) else none,
    X := [], A := [] }

/-- Body of the source `buildNetwork()` loop over the architecture records:
an input record only moves `lastSize`; every other record contributes a
`DenseLayer(lastSize, neurons, activation || "relu", bias !== false,
rng(42))` — a fresh generator seeded with 42 per layer. Returns the layer
list and the final `lastSize`. -/
def buildNetworkGo (bm : ℚ → ℚ → ℚ) : List ArchRecord → ℕ → List DenseLayer × ℕ
  | [], last => ([], last)
  | A :: rest, last =>
    if A.type = "input" then buildNetworkGo bm rest A.neurons
    else
      let d := mkDenseLayer last A.neurons (jsOrStr A.activation "relu")
        (A.bias != some false) rng42 bm
      let r := buildNetworkGo bm rest A.neurons
      (d :: r.1, r.2)

/-- Source `buildNetwork()`: rebuilds the whole network from the
architecture list and the declared input size; the second component is the
new `outputSize`. -/
def buildNetwork (bm : ℚ → ℚ → ℚ) (arch : List ArchRecord) (inputSize : ℕ) :
    List DenseLayer × ℕ :=
  buildNetworkGo bm arch inputSize

/-- Default layer for safe list indexing in statements. -/
def dL0 : DenseLayer := ⟨0, 0, "", false, [], none, [], []⟩

/-- Concrete Box-Muller kernel stand-in for witnesses and counterexamples. -/
def bm0 : ℚ → ℚ → ℚ := fun u v => u * v

/-- Input architecture record used by witnesses. -/
def archI : ArchRecord := ⟨"input", 2, none, none⟩


/-- Hidden architecture record used by witnesses. -/
def archH : ArchRecord := ⟨"hidden", 2, some "relu", some true⟩

/-- Output architecture record with bias disabled, used by the C6
counterexample. -/
def archONB : ArchRecord := ⟨"output", 1, some "sigmoid", some false⟩

/-- Split a character list at every occurrence of `sep`; as with JS
`split`, empty pieces are kept and the result has one piece more than
separators. -/
def splitOnChar (sep : Char) : List Char → List (List Char)
  | [] => [[]]
  | ch :: rest =>
    match splitOnChar sep rest with
    | [] => [[]]
    | g :: gs => if ch = sep then [] :: g :: gs else (ch :: g) :: gs

/-- Whitespace stripped by JS `trim` (the ASCII subset relevant here; it
also swallows the `\r` of CRLF line endings, so splitting on `\n` plus
`trim` models the source's `split(/\r?\n/).map(trim)`). -/
def isSpaceJS (ch : Char) : Bool :=
  ch = ' ' || ch = '\t' || ch = '\r' || ch = '\n'

/-- JS `String.prototype.trim` on a character list. -/
def trimJS (cs : List Char) : List Char :=
  ((cs.dropWhile isSpaceJS).reverse.dropWhile isSpaceJS).reverse

/-- Value of a non-empty all-digit string. -/
def digitsVal (cs : List Char) : Option ℕ :=
  if cs ≠ [] ∧ cs.all (·.isDigit) then
    some (cs.foldl (fun acc ch => acc * 10 + (ch.toNat - 48)) 0)
  else none

/-- Plain decimal forms accepted by JS `Number` (`D+`, `D+.D*`, `.D+`);
exotic forms (exponents, hex, `Infinity`) are outside the CSV claims and
parse as `none` (NaN). -/
def decimalVal (cs : List Char) : Option ℚ :=
  match splitOnChar '.' cs with
  | [intpart] => (digitsVal intpart).map fun n => (n : ℚ)
  | [intpart, fracpart] =>
    if intpart = [] ∧ fracpart = [] then none
    else
      match (if intpart = [] then some 0 else digitsVal intpart),
        (if fracpart = [] then some 0 else digitsVal fracpart) with
      | some a, some b => some ((a : ℚ) + (b : ℚ) / 10 ^ fracpart.length)
      | _, _ => none
  | _ => none

/-- JS `Number(str)`: trim, empty string is `0`, optional sign, decimal
form; `none` stands for NaN (and, downstream, for `undefined` entries). -/
def strToNum (cs0 : List Char) : Option ℚ :=
  let cs := trimJS cs0
  if cs = [] then some 0
  else
    match cs with
    | '-' :: rest => (decimalVal rest).map fun q => -q
    | '+' :: rest => decimalVal rest
    | _ => decimalVal cs

/-- JS `/[a-zA-Z]/.test`. -/
def containsAlpha (cs : List Char) : Bool :=
  cs.any fun ch => ch.isAlpha

/-- The trimmed, non-empty lines of a CSV text
(`split(/\r?\n/).map(trim).filter(Boolean)`). -/
def csvLines (text : String) : List (List Char) :=
  ((splitOnChar '\n' text.data).map trimJS).filter (· ≠ [])

/-- Parse already-split lines into rows of numbers. -/
def parseNumRows (lines : List (List Char)) : Mat (Option ℚ) :=
  lines.map fun l => (splitOnChar ',' l).map strToNum

/-- Numeric rows of a CSV text: a first line containing an alphabetic
character is treated as a header and skipped. -/
def csvDataRows (text : String) : Mat (Option ℚ) :=
  let lines := csvLines text
  let lines2 := if containsAlpha (lines.headD []) then lines.drop 1 else lines
  parseNumRows lines2

/-- Process-wide mutable state touched by the CSV and JSON import handlers:
declared sizes, architecture list, network layers and dataset. -/
structure AppState where
  inputSize : ℕ
  outputSize : ℕ
  arch : List ArchRecord
  layers : List DenseLayer
  dataX : Mat (Option ℚ)
  dataY : Mat (Option ℚ)
deriving DecidableEq

/-- Set the first input record's neuron count (source: `inL.neurons = inputSize`
on the record found by `find`). -/
def updateFirstInput (recs : List ArchRecord) (n : ℕ) : List ArchRecord :=
  match recs with
  | [] => []
  | r :: rest =>
    if r.type = "input" then { r with neurons := n } :: rest
    else r :: updateFirstInput rest n

/-- Set the first output record's neuron count and default its activation to
sigmoid when falsy (source: `outL.neurons = outputSize; if (!outL.activation)
outL.activation = "sigmoid"`). -/
def updateFirstOutput (recs : List ArchRecord) (n : ℕ) : List ArchRecord :=
  match recs with
  | [] => []
  | r :: rest =>
    if r.type = "output" then
      { r with neurons := n, activation := some (jsOrStr r.activation "sigmoid") } :: rest
    else r :: updateFirstOutput rest n

/-- Source `ensureIOInArch()`: guarantee input and output records exist and
match the declared sizes, then rebuild the network (which overwrites
`outputSize` with the final layer width). -/
def ensureIOInArch (bm : ℚ → ℚ → ℚ) (st : AppState) : AppState :=
  let arch1 :=
    if (st.arch.find? fun l => l.type = "input").isSome then
      updateFirstInput st.arch st.inputSize
    else (⟨"input", st.inputSize, none, none⟩ : ArchRecord) :: st.arch
  let arch2 :=
    if (arch1.find? fun l => l.type = "output").isSome then
      updateFirstOutput arch1 st.outputSize
    else arch1 ++ [(⟨"output", st.outputSize, some "sigmoid", some true⟩ : ArchRecord)]
  let built := buildNetwork bm arch2 st.inputSize
  { st with arch := arch2, layers := built.1, outputSize := built.2 }

/-- Source `handleCSVFile` after the file is read: parse the rows (no
column-count validation of any kind — `cols` is just the first row's
count), install the dataset and declared sizes, and re-synchronise the
architecture and network. -/
def handleCSVFile (bm : ℚ → ℚ → ℚ) (text : String) (st : AppState) : AppState :=
  let data := csvDataRows text
  let cols := (data.headD []).length
  let st1 := { st with
    inputSize := cols - 1, outputSize := 1,
    dataX := data.map fun r => r.take (cols - 1),
    dataY := data.map fun r => [r.getD (cols - 1) none] }
  ensureIOInArch bm st1

/-- Layer record of the persisted weights format:
`{in, out, activation, useBias, W, b}` (`in`/`out` are reserved words in
Lean, hence `inR`/`outR`). -/
structure LayerRecord where
  inR : ℕ
  outR : ℕ
  activation : String
  useBias : Bool
  W : Mat ℚ
  b : Option (Mat ℚ)
deriving DecidableEq

/-- A parsed import payload: which of the recognised top-level fields are
present (and are arrays). -/
structure ImportObj where
  layers : Option (List LayerRecord)
  architecture : Option (List ArchRecord)
  weights : Option (List LayerRecord)
deriving DecidableEq

/-- Network layers rebuilt from weight records, threading `last` as the
source does. The `DenseLayer(last, L.out, ...)` constructor's random
weights and zero bias are immediately overwritten by `d.W = L.W` and
`d.b = L.b`, so the discarded `Math.random` draws are not modelled.
No chain-consistency check of any kind is performed. -/
def weightsToLayers : ℕ → List LayerRecord → List DenseLayer
  | _, [] => []
  | last, Lr :: rest =>
    { inSize := last, outSize := Lr.outR, activation := Lr.activation,
      useBias := Lr.useBias, W := Lr.W, b := Lr.b, X := [], A := [] } ::
      weightsToLayers Lr.outR rest

/-- Adjacent chain consistency of weight records (each record's `in` equal
to the previous record's `out`) — the property the spec expects the import
to validate. -/
def recordsChainOK : List LayerRecord → Bool
  | [] => true
  | [_] => true
  | L1 :: L2 :: rest => (L2.inR == L1.outR) && recordsChainOK (L2 :: rest)

/-- Weights-format branch of the import handler: an empty `layers` array is
the only rejected input; otherwise sizes, architecture and network are
replaced wholesale with the records as given. -/
def importWeightsFmt (ls : List LayerRecord) (st : AppState) :
    Except String AppState :=
  match ls with
  | [] => .error "layers vuoto"
  | L0 :: rest =>
    let inputSize' := L0.inR
    let lastL := (L0 :: rest).getLast (List.cons_ne_nil L0 rest)
    let outputSize' := lastL.outR
    let arch' : List ArchRecord :=
      ⟨"input", inputSize', none, none⟩ ::
        ((L0 :: rest).dropLast.map fun Lr =>
          (⟨"hidden", Lr.outR, some Lr.activation, some Lr.useBias⟩ : ArchRecord)) ++
        [⟨"output", outputSize', some (jsOrStr (some lastL.activation) "sigmoid"),
          some lastL.useBias⟩]
    .ok { st with
      inputSize := inputSize', outputSize := outputSize',
      arch := arch', layers := weightsToLayers inputSize' (L0 :: rest) }

/-- Declared input size after an architecture import: the first input
record's neuron count if one exists, the previous value otherwise. -/
def archInputSize (recs : List ArchRecord) (old : ℕ) : ℕ :=
  match recs.find? fun l => l.type = "input" with
  | some l => l.neurons
  | none => old

/-- Per-layer application of supplied weight records, guarded per record by
`o.weights[i].W && o.weights[i].b` (the `W` field is always truthy in the
typed model; a `null` bias — every exported no-bias layer — fails the
guard and leaves the freshly built layer untouched). -/
def applyImportedWeights (ws : List LayerRecord) (layers : List DenseLayer) :
    List DenseLayer :=
  List.zipWith
    (fun w L => if w.b.isSome then { L with W := w.W, b := w.b } else L) ws layers

/-- Architecture-format branch of the import handler: rebuild from the
records (fresh random weights), then apply the supplied weights only if
their count matches the rebuilt layer count. The interim assignment of
`outputSize` from the output record is dead — `buildNetwork()` immediately
overwrites it with the final `lastSize`. -/
def importArchFmt (bm : ℚ → ℚ → ℚ) (oarch : Option (List ArchRecord))
    (ws : Option (List LayerRecord)) (st : AppState) : Except String AppState :=
  match oarch with
  | none => .error "manca architecture"
  | some archRecs =>
    let inputSize' := archInputSize archRecs st.inputSize
    let built := buildNetwork bm archRecs inputSize'
    let layers' :=
      match ws with
      | some wrecs =>
        if wrecs.length = built.1.length then applyImportedWeights wrecs built.1
        else built.1
      | none => built.1
    .ok { st with
      inputSize := inputSize', outputSize := built.2,
      arch := archRecs, layers := layers' }

/-- Source `#importJSON` change handler after `JSON.parse`: dispatch on a
present `layers` array, else on `architecture || weights`, else report an
unrecognised format. An `Except.error` models the caught-and-alerted
exception; in every modelled payload the throw happens before any global
assignment, so the prior state survives errors unmutated (the caller keeps
`st`). -/
def handleImportJSON (bm : ℚ → ℚ → ℚ) (o : ImportObj) (st : AppState) :
    Except String AppState :=
  match o.layers with
  | some ls => importWeightsFmt ls st
  | none =>
    if o.architecture.isSome || o.weights.isSome then
      importArchFmt bm o.architecture o.weights st
    else .error "Formato non riconosciuto"

/-- Default layer record for safe list indexing in statements. -/
def wr0 : LayerRecord := ⟨0, 0, "", false, [], none⟩

/-- Weight records with an inconsistent chain (the second record's `in` is
5, the first record's `out` is 3), for the C5 counterexample. -/
def wr1 : LayerRecord :=
  ⟨2, 3, "relu", true, [[1, 0, 0], [0, 1, 0]], some [[0, 0, 0]]⟩

def wr2 : LayerRecord :=
  ⟨5, 1, "relu", true, [[1], [2], [3], [4], [5]], some [[0]]⟩

/-- Weight record with a `null` bias (as exported for a no-bias layer), for
the C6 counterexample. -/
def wrNB : LayerRecord := ⟨0, 0, "", false, [[9]], none⟩

/-- Concrete prior state used by the import counterexamples. -/
def st5 : AppState := ⟨7, 9, [], [], [], []⟩

/-- The XOR CSV text of the spec's C8 scenario. -/
def csvXorText : String := "0,0,0\n0,1,1\n1,0,1\n1,1,0"

lemma RandSource.pick_ne (src : RandSource) (p : ℕ) : (src.pick p).2 ≠ 0 :=
  Nat.find_spec (src.nz p)

lemma RandSource.pick_is_draw (src : RandSource) (p : ℕ) :
    ∃ q, (src.pick p).2 = src.s q :=
  ⟨p + Nat.find (src.nz p), rfl⟩

lemma genEntries_fst_length {α : Type} [DivisionRing α] (bm : ℚ → ℚ → α)
    (src : RandSource) : ∀ (n p : ℕ), ((genEntries bm src n p).1).length = n := by
  intro n
  induction n with
  | zero => intro p; rfl
  | succ m ih => intro p; simp [genEntries, ih]

lemma genRows_length {α : Type} [DivisionRing α] (bm : ℚ → ℚ → α)
    (src : RandSource) (c : ℕ) : ∀ (n p : ℕ), (genRows bm src c n p).length = n := by
  intro n
  induction n with
  | zero => intro p; rfl
  | succ m ih => intro p; simp [genRows, ih]

lemma genRows_row_length {α : Type} [DivisionRing α] (bm : ℚ → ℚ → α)
    (src : RandSource) (c : ℕ) :
    ∀ (n p : ℕ) (row : List α), row ∈ genRows bm src c n p → row.length = c := by
  intro n
  induction n with
  | zero => intro p row h; simp [genRows] at h
  | succ m ih =>
    intro p row h
    rcases List.mem_cons.mp h with rfl | hmem
    · exact genEntries_fst_length bm src c p
    · exact ih _ _ hmem

lemma randn_shaped {α : Type} [DivisionRing α] (r c : ℕ) (src : RandSource)
    (bm : ℚ → ℚ → α) : Shaped (randn r c src bm) r c :=
  ⟨genRows_length bm src c r 0, fun row h => genRows_row_length bm src c r 0 row h⟩

lemma genEntries_mem {α : Type} [DivisionRing α] (bm : ℚ → ℚ → α)
    (src : RandSource) :
    ∀ (n p : ℕ) (x : α), x ∈ (genEntries bm src n p).1 →
      ∃ u v : ℚ, u ≠ 0 ∧ v ≠ 0 ∧ (∃ qu, u = src.s qu) ∧ (∃ qv, v = src.s qv) ∧
        x = bm u v * (1 / 10) := by
  intro n
  induction n with
  | zero => intro p x h; simp [genEntries] at h
  | succ m ih =>
    intro p x h
    rcases List.mem_cons.mp h with rfl | hmem
    · exact ⟨(src.pick p).2, (src.pick (src.pick p).1).2,
        src.pick_ne p, src.pick_ne _, src.pick_is_draw p, src.pick_is_draw _, rfl⟩
    · exact ih _ x hmem

lemma genRows_mem {α : Type} [DivisionRing α] (bm : ℚ → ℚ → α)
    (src : RandSource) (c : ℕ) :
    ∀ (n p : ℕ) (row : List α) (x : α), row ∈ genRows bm src c n p → x ∈ row →
      ∃ u v : ℚ, u ≠ 0 ∧ v ≠ 0 ∧ (∃ qu, u = src.s qu) ∧ (∃ qv, v = src.s qv) ∧
        x = bm u v * (1 / 10) := by
  intro n
  induction n with
  | zero => intro p row x h _; simp [genRows] at h
  | succ m ih =>
    intro p row x h hx
    rcases List.mem_cons.mp h with rfl | hmem
    · exact genEntries_mem bm src c p x hx
    · exact ih _ row x hmem hx

lemma idx_mem {α : Type} [Zero α] (m : Mat α) (r c i j : ℕ)
    (hm : Shaped m r c) (hi : i < r) (hj : j < c) :
    ∃ row, row ∈ m ∧ idx m i j ∈ row := by
  have hi' : i < m.length := hm.1 ▸ hi
  refine ⟨m.getD i [], ?_, ?_⟩
  · rw [List.getD_eq_getElem _ _ hi']
    exact List.getElem_mem hi'
  · have hj' : j < (m.getD i []).length := by rw [hm.row_length hi]; exact hj
    unfold idx
    rw [List.getD_eq_getElem _ _ hj']
    exact List.getElem_mem hj'

lemma buildNetworkGo_mem (bm : ℚ → ℚ → ℚ) (arch : List ArchRecord) :
    ∀ (last : ℕ) (L : DenseLayer), L ∈ (buildNetworkGo bm arch last).1 →
      L.W = randn L.inSize L.outSize rng42 bm := by
  induction arch with
  | nil => intro last L h; simp [buildNetworkGo] at h
  | cons A rest ih =>
    intro last L h
    by_cases ht : A.type = "input"
    · rw [buildNetworkGo, if_pos ht] at h
      exact ih _ _ h
    · rw [buildNetworkGo, if_neg ht] at h
      rcases List.mem_cons.mp h with rfl | hmem
      · rfl
      · exact ih _ _ hmem


lemma applyImportedWeights_getD_none :
    ∀ (ws : List LayerRecord) (layers : List DenseLayer) (i : ℕ),
      i < layers.length → ws.length = layers.length → (ws.getD i wr0).b = none →
      (applyImportedWeights ws layers).getD i dL0 = layers.getD i dL0 := by
  intro ws
  induction ws with
  | nil =>
    intro layers i hi hlen _
    exfalso
    rw [← hlen] at hi
    simp at hi
  | cons w wrest ih =>
    intro layers i hi hlen hb
    cases layers with
    | nil => simp at hi
    | cons L lrest =>
      cases i with
      | zero =>
        have hb' : w.b = none := by simpa using hb
        simp [applyImportedWeights, List.zipWith, hb']
      | succ n =>
        have hi' : n < lrest.length := by simpa using hi
        have hlen' : wrest.length = lrest.length := by simpa using hlen
        have hb' : (wrest.getD n wr0).b = none := by simpa using hb
        simpa [applyImportedWeights, List.zipWith] using ih lrest n hi' hlen' hb'

lemma applyImportedWeights_getD_some :
    ∀ (ws : List LayerRecord) (layers : List DenseLayer) (i : ℕ),
      i < layers.length → ws.length = layers.length → (ws.getD i wr0).b ≠ none →
      (applyImportedWeights ws layers).getD i dL0 =
        { layers.getD i dL0 with
          W := (ws.getD i wr0).W, b := (ws.getD i wr0).b } := by
  intro ws
  induction ws with
  | nil =>
    intro layers i hi hlen _
    exfalso
    rw [← hlen] at hi
    simp at hi
  | cons w wrest ih =>
    intro layers i hi hlen hb
    cases layers with
    | nil => simp at hi
    | cons L lrest =>
      cases i with
      | zero =>
        have hb' : w.b ≠ none := by simpa using hb
        have hbs : w.b.isSome := Option.ne_none_iff_isSome.mp hb'
        simp [applyImportedWeights, List.zipWith, hbs]
      | succ n =>
        have hi' : n < lrest.length := by simpa using hi
        have hlen' : wrest.length = lrest.length := by simpa using hlen
        have hb' : (wrest.getD n wr0).b ≠ none := by simpa using hb
        simpa [applyImportedWeights, List.zipWith] using ih lrest n hi' hlen' hb'

-- ===================== Claims =====================

/-- C1: after a forward call caching input `X` (shape `bs × in`) and output
`A` (shape `bs × out`), `backward(dA, lr)` with `dA` the shape of `A`
computes `gradPreActivation = dA ⊙ df(A)`, updates every weight entry in
place by `W[i][j] -= lr * (Xᵀ·gradPreActivation)[i][j] / bs`, updates every
bias entry by `b[0][j] -= lr * column-sum(gradPreActivation)[j] / bs`
exactly when bias is enabled (bias untouched otherwise), and returns
`gradPreActivation · Wᵀ` computed from the pre-update weights. -/
theorem backward_updates_and_gradient (acts : String → Activation) (L : DenseLayer)
    (bs : ℕ) (X dA : Mat ℚ) (lr : ℚ) (hwf : wfLayer L)
    (hX : Shaped X bs L.inSize) (hdA : Shaped dA bs L.outSize)
    (hbs : 1 ≤ bs) (hout : 1 ≤ L.outSize) :
    (∀ i j, i < L.inSize → j < L.outSize →
      idx (fwdThenBack acts L X dA lr).1.W i j =
        idx L.W i j -
          lr * ((List.range bs).map fun k =>
            idx X k i * gradZ acts L X dA k j).sum / bs) ∧
    (L.useBias = true → (fwdThenBack acts L X dA lr).1.b ≠ none ∧
      ∀ j, j < L.outSize →
        idx ((fwdThenBack acts L X dA lr).1.b.getD []) 0 j =
          idx (L.b.getD []) 0 j -
            lr * ((List.range bs).map fun k => gradZ acts L X dA k j).sum / bs) ∧
    (L.useBias = false → (fwdThenBack acts L X dA lr).1.b = L.b) ∧
    Shaped (fwdThenBack acts L X dA lr).2 bs L.inSize ∧
    (∀ i j, i < bs → j < L.inSize →
      idx (fwdThenBack acts L X dA lr).2 i j =
        ((List.range L.outSize).map fun k =>
          gradZ acts L X dA i k * idx L.W j k).sum) := by
  obtain ⟨hW, hin, hbias, hnobias⟩ := hwf
  rw [fwdThenBack_W, fwdThenBack_b, fwdThenBack_dX]
  have hA : Shaped (DenseLayer.forward acts L X).2 bs L.outSize :=
    forward_out_shaped acts L X bs hW hin hX hbs
  set A : Mat ℚ := (DenseLayer.forward acts L X).2 with hAdef
  set dZ : Mat ℚ :=
    hadamard dA (A.map fun row => row.map (acts L.activation).df) with hdZdef
  have hdZsh : Shaped dZ bs L.outSize := by
    rw [hdZdef]
    exact hadamard_shaped _ _ _ _ hdA hbs
  have hdZidx : ∀ k j, k < bs → j < L.outSize →
      idx dZ k j = gradZ acts L X dA k j := by
    intro k j hk hj
    rw [hdZdef,
      hadamard_idx dA _ k j (by rw [hdA.1]; exact hk)
        (by rw [hdA.headD_length hbs]; exact hj),
      idx_map_map _ A bs L.outSize k j hA hk hj]
    rw [gradZ, ← hAdef]
  have hXt_len : (transposeM X).length = L.inSize := by
    rw [transposeM_length, hX.headD_length hbs]
  have hdW : ∀ i j, i < L.inSize → j < L.outSize →
      idx (dot (transposeM X) dZ) i j =
        ((List.range bs).map fun k => idx X k i * gradZ acts L X dA k j).sum := by
    intro i j hi hj
    rw [dot_idx _ _ i j (by rw [hXt_len]; exact hi)
      (by rw [hdZsh.headD_length hbs]; exact hj), hdZsh.1]
    apply sum_range_congr
    intro k hk
    rw [transposeM_idx X i k (by rw [hX.headD_length hbs]; exact hi)
      (by rw [hX.1]; exact hk), hdZidx k j hk hj]
  have hcol : ∀ j, j < L.outSize →
      (dZ.map fun row => row.getD j 0).sum =
        ((List.range bs).map fun k => gradZ acts L X dA k j).sum := by
    intro j hj
    rw [hdZdef, map_getD_hadamard dA _ bs L.outSize j hdA hbs hj]
    apply sum_range_congr
    intro k hk
    rw [idx_map_map _ A bs L.outSize k j hA hk hj]
    rw [gradZ, ← hAdef]
  refine ⟨?_, ?_, ?_, ?_, ?_⟩
  · -- weight update entries
    intro i j hi hj
    rw [updMat_idx (fun i j w =>
        if j < (L.W.headD []).length then
          w - lr * idx (dot (transposeM X) dZ) i j / (A.length : ℚ) else w)
      L.W L.inSize L.outSize i j hW hi hj]
    rw [Shaped.headD_length hW hin, if_pos hj, hdW i j hi hj, hA.1]
  · -- bias update entries
    intro hub
    obtain ⟨hbne, hbsh⟩ := hbias hub
    obtain ⟨b0, hb0⟩ := Option.ne_none_iff_exists'.mp hbne
    rw [hub]
    simp only [if_true, hb0, Option.map_some']
    have hb0sh : Shaped b0 1 L.outSize := by rwa [hb0] at hbsh
    refine ⟨by simp, ?_⟩
    intro j hj
    simp only [Option.getD_some]
    unfold idx
    rw [updListIdx_getD _ b0 0 0 [] (by rw [hb0sh.1]; omega)]
    simp only [Nat.zero_add, if_true]
    rw [updListIdx_getD _ (b0.getD 0 []) 0 j 0
      (by rw [hb0sh.row_length (by omega)]; exact hj)]
    simp only [Nat.zero_add]
    rw [hb0sh.headD_length (by omega), if_pos hj]
    rw [getD_range_map _ _ j 0 (by rw [hA.headD_length hbs]; exact hj)]
    rw [hcol j hj, hA.1]
  · -- bias untouched when disabled
    intro hub
    rw [hub]
    simp
  · -- returned gradient shape
    exact dot_shaped _ _ _ _ hdZsh.1
      ((transposeM_shaped L.W L.inSize L.outSize hW hin).headD_length hout)
  · -- returned gradient entries
    intro i j hi hj
    rw [dot_idx dZ _ i j (by rw [hdZsh.1]; exact hi)
      (by rw [(transposeM_shaped L.W L.inSize L.outSize hW hin).headD_length hout]
          exact hj),
      transposeM_length, Shaped.headD_length hW hin]
    apply sum_range_congr
    intro k hk
    rw [hdZidx i k hi hk,
      transposeM_idx L.W k j (by rw [Shaped.headD_length hW hin]; exact hk)
        (by rw [hW.1]; exact hj)]

/-- C1 witness: the backward theorem instantiated at a concrete 1×1 linear
layer with bias, batch `X = [[2]]`, upstream gradient `[[1]]`, `lr = 2`. -/
theorem backward_updates_and_gradient_witness :
    wfLayer wL0 ∧ Shaped [[(2 : ℚ)]] 1 wL0.inSize ∧
    Shaped [[(1 : ℚ)]] 1 wL0.outSize ∧ (1 : ℕ) ≤ 1 ∧ 1 ≤ wL0.outSize ∧
    ((∀ i j, i < wL0.inSize → j < wL0.outSize →
      idx (fwdThenBack acts0 wL0 [[(2 : ℚ)]] [[(1 : ℚ)]] 2).1.W i j =
        idx wL0.W i j -
          2 * ((List.range 1).map fun k =>
            idx [[(2 : ℚ)]] k i * gradZ acts0 wL0 [[(2 : ℚ)]] [[(1 : ℚ)]] k j).sum / 1) ∧
    (wL0.useBias = true →
      (fwdThenBack acts0 wL0 [[(2 : ℚ)]] [[(1 : ℚ)]] 2).1.b ≠ none ∧
      ∀ j, j < wL0.outSize →
        idx ((fwdThenBack acts0 wL0 [[(2 : ℚ)]] [[(1 : ℚ)]] 2).1.b.getD []) 0 j =
          idx (wL0.b.getD []) 0 j -
            2 * ((List.range 1).map fun k =>
              gradZ acts0 wL0 [[(2 : ℚ)]] [[(1 : ℚ)]] k j).sum / 1) ∧
    (wL0.useBias = false →
      (fwdThenBack acts0 wL0 [[(2 : ℚ)]] [[(1 : ℚ)]] 2).1.b = wL0.b) ∧
    Shaped (fwdThenBack acts0 wL0 [[(2 : ℚ)]] [[(1 : ℚ)]] 2).2 1 wL0.inSize ∧
    (∀ i j, i < 1 → j < wL0.inSize →
      idx (fwdThenBack acts0 wL0 [[(2 : ℚ)]] [[(1 : ℚ)]] 2).2 i j =
        ((List.range wL0.outSize).map fun k =>
          gradZ acts0 wL0 [[(2 : ℚ)]] [[(1 : ℚ)]] i k * idx wL0.W j k).sum)) :=
  ⟨by decide, by decide, by decide, by decide, by decide,
    backward_updates_and_gradient acts0 wL0 1 [[(2 : ℚ)]] [[(1 : ℚ)]] 2
      (by decide) (by decide) (by decide) (by decide) (by decide)⟩

/-- C2: for predictions and targets of identical shape `bs × ow`
(`bs ≥ 1`, `ow ≥ 1`), `mse` returns the mean over rows of the per-row sum
of squared errors as its first component, and a `bs × ow` gradient matrix
with entry `[i][j]` equal to `2*(pred[i][j]-target[i][j])/ow` (normalised
by the output width, not the batch size). -/
theorem mse_loss_and_grad (pred target : Mat ℚ) (bs ow : ℕ)
    (hp : Shaped pred bs ow) (ht : Shaped target bs ow)
    (hbs : 1 ≤ bs) (how : 1 ≤ ow) :
    (mse pred target).1 = mseLossSpec pred target bs ow ∧
    Shaped (mse pred target).2 bs ow ∧
    ∀ i j, i < bs → j < ow →
      idx (mse pred target).2 i j =
        2 * (idx pred i j - idx target i j) / ow := by
  have hr : pred.length = bs := hp.1
  have hc : (pred.headD []).length = ow := hp.headD_length hbs
  refine ⟨?_, ?_, ?_⟩
  · simp only [mse, mseLossSpec, hr, hc, sq]
  · simp only [mse]
    rw [hr, hc]
    exact mkMat_shaped bs ow _
  · intro i j hi hj
    simp only [mse, hr, hc]
    rw [mkMat_idx bs ow _ i j hi hj]

/-- C2 witness: concrete evaluation at
`pred = [[1],[0]]`, `target = [[0],[0]]`. -/
theorem mse_loss_and_grad_witness :
    Shaped [[(1 : ℚ)], [0]] 2 1 ∧ Shaped [[(0 : ℚ)], [0]] 2 1 ∧
    ((mse [[(1 : ℚ)], [0]] [[(0 : ℚ)], [0]]).1 =
        mseLossSpec [[(1 : ℚ)], [0]] [[(0 : ℚ)], [0]] 2 1 ∧
      Shaped (mse [[(1 : ℚ)], [0]] [[(0 : ℚ)], [0]]).2 2 1 ∧
      ∀ i j, i < 2 → j < 1 →
        idx (mse [[(1 : ℚ)], [0]] [[(0 : ℚ)], [0]]).2 i j =
          2 * (idx [[(1 : ℚ)], [0]] i j - idx [[(0 : ℚ)], [0]] i j) / 1) :=
  ⟨by decide, by decide,
    mse_loss_and_grad [[(1 : ℚ)], [0]] [[(0 : ℚ)], [0]] 2 1
      (by decide) (by decide) (by decide) (by decide)⟩

/-- C3: for a consistently chained layer list (each layer's input width
equal to the running output width, the first equal to the declared network
input size) and an input batch of at least one row with the declared column
count, `Network.forward` folds the layers' forward functions left to right,
returns the last layer's output, and that output is shaped
`batchSize × finalLayerOutputWidth`. -/
theorem network_forward_chain_shape (acts : String → Activation)
    (layers : List DenseLayer) (X : Mat ℚ) (bs n : ℕ)
    (hchain : chainOK n layers) (hX : Shaped X bs n) (hbs : 1 ≤ bs) :
    (networkForward acts layers X).2 =
      layers.foldl (fun M L => (DenseLayer.forward acts L M).2) X ∧
    Shaped (networkForward acts layers X).2 bs (lastWidth n layers) := by
  revert hchain hX
  induction layers generalizing n X with
  | nil =>
    intro _ hX
    exact ⟨rfl, by simpa [lastWidth, networkForward] using hX⟩
  | cons L rest ih =>
    intro hchain hX
    obtain ⟨hinEq, hwfL, hrest⟩ := hchain
    have hX' : Shaped X bs L.inSize := by rw [hinEq]; exact hX
    have hA1 : Shaped (DenseLayer.forward acts L X).2 bs L.outSize :=
      forward_out_shaped acts L X bs hwfL.1 hwfL.2.1 hX' hbs
    have hrec := ih (DenseLayer.forward acts L X).2 L.outSize hrest hA1
    have h1 : (networkForward acts (L :: rest) X).2 =
        (networkForward acts rest (DenseLayer.forward acts L X).2).2 := rfl
    constructor
    · rw [h1, hrec.1]
      rfl
    · rw [h1, lastWidth_cons]
      exact hrec.2

/-- C3 witness: two chained 1×1 layers on the batch `[[4]]`. -/
theorem network_forward_chain_shape_witness :
    chainOK 1 [wL0, wL0] ∧ Shaped [[(4 : ℚ)]] 1 1 ∧
    ((networkForward acts0 [wL0, wL0] [[(4 : ℚ)]]).2 =
      [wL0, wL0].foldl (fun M L => (DenseLayer.forward acts0 L M).2) [[(4 : ℚ)]] ∧
    Shaped (networkForward acts0 [wL0, wL0] [[(4 : ℚ)]]).2 1
      (lastWidth 1 [wL0, wL0])) :=
  ⟨by decide, by decide,
    network_forward_chain_shape acts0 [wL0, wL0] [[(4 : ℚ)]] 1 1
      (by decide) (by decide) (by decide)⟩

/-- C4: cancellation is cooperative and observed only at epoch boundaries.
Every epoch that appears in the training trace appears with all of its
batches and its full-dataset evaluation (no batch or epoch is aborted
mid-way), and once the flag is observed set at an epoch's boundary check,
no batch and no evaluation of any later epoch is processed. -/
theorem train_cancellation_epoch_boundary (epochs nB : ℕ) (flag : ℕ → Bool) :
    (∀ ep,
      ((∃ b, TrainEv.batchStep ep b ∈ trainTrace epochs nB flag) ∨
        TrainEv.epochEval ep ∈ trainTrace epochs nB flag) →
      (∀ b, b < nB → TrainEv.batchStep ep b ∈ trainTrace epochs nB flag) ∧
        TrainEv.epochEval ep ∈ trainTrace epochs nB flag) ∧
    (∀ ep' ep, flag ep' = true →
      TrainEv.epochEval ep' ∈ trainTrace epochs nB flag → ep' < ep →
      (∀ b, TrainEv.batchStep ep b ∉ trainTrace epochs nB flag) ∧
        TrainEv.epochEval ep ∉ trainTrace epochs nB flag) := by
  unfold trainTrace
  constructor
  · intro ep h
    have hc : 1 ≤ ep ∧ ep < 1 + epochs ∧
        ∀ k, 1 ≤ k → k < ep → flag k = false := by
      rcases h with ⟨b, hb⟩ | he
      · obtain ⟨h1, h2, _, h4⟩ := (mem_ttf_batch nB flag epochs 1 ep b).mp hb
        exact ⟨h1, h2, h4⟩
      · exact (mem_ttf_eval nB flag epochs 1 ep).mp he
    obtain ⟨h1, h2, h4⟩ := hc
    exact ⟨fun b hb => (mem_ttf_batch nB flag epochs 1 ep b).mpr ⟨h1, h2, hb, h4⟩,
      (mem_ttf_eval nB flag epochs 1 ep).mpr ⟨h1, h2, h4⟩⟩
  · intro ep' ep hf he hlt
    obtain ⟨h1', _, _⟩ := (mem_ttf_eval nB flag epochs 1 ep').mp he
    constructor
    · intro b hb
      obtain ⟨_, _, _, h4⟩ := (mem_ttf_batch nB flag epochs 1 ep b).mp hb
      rw [h4 ep' h1' hlt] at hf
      simp at hf
    · intro hb
      obtain ⟨_, _, h4⟩ := (mem_ttf_eval nB flag epochs 1 ep).mp hb
      rw [h4 ep' h1' hlt] at hf
      simp at hf

/-- C4 witness: three configured epochs, two batches each, flag observed set
at epoch 2's boundary: epoch 2 still ran its evaluation, epoch 3 never runs. -/
theorem train_cancellation_epoch_boundary_witness :
    flagC 2 = true ∧ TrainEv.epochEval 2 ∈ trainTrace 3 2 flagC ∧ (2 : ℕ) < 3 ∧
    ((∀ b, TrainEv.batchStep 3 b ∉ trainTrace 3 2 flagC) ∧
      TrainEv.epochEval 3 ∉ trainTrace 3 2 flagC) :=
  ⟨by decide, by decide, by decide,
    (train_cancellation_epoch_boundary 3 2 flagC).2 2 3 (by decide) (by decide)
      (by decide)⟩

/-- C9: for any matrix size and any random source with values in `[0,1)`
that eventually produces a nonzero value, every entry of the initializer's
output comes from two re-sampled uniform draws that are both nonzero — so
the logarithm's argument `u` is strictly positive, `-2*ln(u)` is
nonnegative (no square root of a negative), and the entry, a Box-Muller
Gaussian sample scaled by `0.1`, is bounded in absolute value by the finite
real number `sqrt(-2 ln u)/10`. -/
theorem randn_nonzero_draws_finite (r c : ℕ) (src : RandSource)
    (hrange : ∀ n, 0 ≤ src.s n ∧ src.s n < 1) (i j : ℕ)
    (hi : i < r) (hj : j < c) :
    ∃ u v : ℚ, u ≠ 0 ∧ v ≠ 0 ∧ 0 < u ∧ u < 1 ∧ 0 ≤ v ∧ v < 1 ∧
      idx (randn r c src boxMullerR) i j = boxMullerR u v * (1 / 10) ∧
      0 ≤ -2 * Real.log (u : ℝ) ∧
      |boxMullerR u v * (1 / 10)| ≤ Real.sqrt (-2 * Real.log (u : ℝ)) * (1 / 10) := by
  have hsh : Shaped (randn r c src boxMullerR) r c := randn_shaped r c src boxMullerR
  obtain ⟨row, hrow, hxin⟩ := idx_mem _ r c i j hsh hi hj
  obtain ⟨u, v, hu0, hv0, ⟨qu, hqu⟩, ⟨qv, hqv⟩, hx⟩ :=
    genRows_mem boxMullerR src c r 0 row _ hrow hxin
  have hu : 0 ≤ u ∧ u < 1 := hqu ▸ hrange qu
  have hv : 0 ≤ v ∧ v < 1 := hqv ▸ hrange qv
  have hupos : 0 < u := lt_of_le_of_ne hu.1 (Ne.symm hu0)
  have hlog : Real.log (u : ℝ) ≤ 0 := by
    apply Real.log_nonpos
    · exact_mod_cast hu.1
    · exact_mod_cast le_of_lt hu.2
  refine ⟨u, v, hu0, hv0, hupos, hu.2, hv.1, hv.2, hx, by linarith, ?_⟩
  have hsqrt := Real.sqrt_nonneg (-2 * Real.log (u : ℝ))
  have hcos := Real.abs_cos_le_one (2 * Real.pi * (v : ℝ))
  unfold boxMullerR
  rw [abs_mul, abs_mul, abs_of_nonneg hsqrt]
  have h10 : |(1 / 10 : ℝ)| = 1 / 10 := by norm_num
  rw [h10]
  have h1 : Real.sqrt (-2 * Real.log (u : ℝ)) * |Real.cos (2 * Real.pi * (v : ℝ))| ≤
      Real.sqrt (-2 * Real.log (u : ℝ)) := by
    simpa using mul_le_mul_of_nonneg_left hcos hsqrt
  exact mul_le_mul_of_nonneg_right h1 (by norm_num)

/-- C9 witness: a constant source of `1/2` draws on a 1×1 matrix. -/
theorem randn_nonzero_draws_finite_witness :
    (∀ n, 0 ≤ halfSource.s n ∧ halfSource.s n < 1) ∧ (0 : ℕ) < 1 ∧
    (∃ u v : ℚ, u ≠ 0 ∧ v ≠ 0 ∧ 0 < u ∧ u < 1 ∧ 0 ≤ v ∧ v < 1 ∧
      idx (randn 1 1 halfSource boxMullerR) 0 0 = boxMullerR u v * (1 / 10) ∧
      0 ≤ -2 * Real.log (u : ℝ) ∧
      |boxMullerR u v * (1 / 10)| ≤ Real.sqrt (-2 * Real.log (u : ℝ)) * (1 / 10)) :=
  ⟨fun n => ⟨by norm_num [halfSource], by norm_num [halfSource]⟩, by norm_num,
    randn_nonzero_draws_finite 1 1 halfSource
      (fun n => ⟨by norm_num [halfSource], by norm_num [halfSource]⟩) 0 0
      (by norm_num) (by norm_num)⟩

/-- C10: every layer built by `buildNetwork` draws its weights from a fresh
`rng(42)` stream, so any two layers with equal input and output widths —
inside one build or across two builds (with any architecture lists and
declared input sizes) — receive identical initial weight matrices; and
building twice from equal inputs yields identical networks. -/
theorem buildNetwork_seed42_deterministic (bm : ℚ → ℚ → ℚ)
    (a1 a2 : List ArchRecord) (i1 i2 j k : ℕ)
    (hj : j < (buildNetwork bm a1 i1).1.length)
    (hk : k < (buildNetwork bm a2 i2).1.length)
    (hin : ((buildNetwork bm a1 i1).1.getD j dL0).inSize =
      ((buildNetwork bm a2 i2).1.getD k dL0).inSize)
    (hout : ((buildNetwork bm a1 i1).1.getD j dL0).outSize =
      ((buildNetwork bm a2 i2).1.getD k dL0).outSize) :
    ((buildNetwork bm a1 i1).1.getD j dL0).W =
      ((buildNetwork bm a2 i2).1.getD k dL0).W ∧
    (a1 = a2 → i1 = i2 → buildNetwork bm a1 i1 = buildNetwork bm a2 i2) := by
  constructor
  · have hmem1 : (buildNetwork bm a1 i1).1.getD j dL0 ∈ (buildNetwork bm a1 i1).1 := by
      rw [List.getD_eq_getElem _ _ hj]
      exact List.getElem_mem hj
    have hmem2 : (buildNetwork bm a2 i2).1.getD k dL0 ∈ (buildNetwork bm a2 i2).1 := by
      rw [List.getD_eq_getElem _ _ hk]
      exact List.getElem_mem hk
    rw [buildNetworkGo_mem bm a1 i1 _ hmem1, buildNetworkGo_mem bm a2 i2 _ hmem2,
      hin, hout]
  · rintro rfl rfl
    rfl

/-- C10 witness: one build of `input(2) - hidden(2) - hidden(2)`; its two
layers have equal widths 2×2 and hence identical weight matrices. -/
theorem buildNetwork_seed42_deterministic_witness :
    (0 : ℕ) < (buildNetwork bm0 [archI, archH, archH] 2).1.length ∧
    (1 : ℕ) < (buildNetwork bm0 [archI, archH, archH] 2).1.length ∧
    ((buildNetwork bm0 [archI, archH, archH] 2).1.getD 0 dL0).inSize =
      ((buildNetwork bm0 [archI, archH, archH] 2).1.getD 1 dL0).inSize ∧
    ((buildNetwork bm0 [archI, archH, archH] 2).1.getD 0 dL0).outSize =
      ((buildNetwork bm0 [archI, archH, archH] 2).1.getD 1 dL0).outSize ∧
    ((buildNetwork bm0 [archI, archH, archH] 2).1.getD 0 dL0).W =
      ((buildNetwork bm0 [archI, archH, archH] 2).1.getD 1 dL0).W :=
  ⟨by decide, by decide, by decide, by decide,
    (buildNetwork_seed42_deterministic bm0 [archI, archH, archH]
      [archI, archH, archH] 2 2 0 1 (by decide) (by decide) (by decide)
      (by decide)).1⟩

/-- C5 counterexample: a weights payload whose two layer records do not
chain (`wr2.in = 5` differs from `wr1.out = 3`) is imported without any
reported error, and the in-memory state is replaced (so it is not left
untouched), contradicting the claim that an inconsistent chain is a
reported format error with no mutation. -/
theorem import_inconsistent_chain_accepted :
    recordsChainOK [wr1, wr2] = false ∧
    (handleImportJSON bm0 ⟨some [wr1, wr2], none, none⟩ st5).toOption.isSome = true ∧
    (handleImportJSON bm0 ⟨some [wr1, wr2], none, none⟩ st5).toOption ≠ some st5 := by
  refine ⟨by decide, by decide, by decide⟩

/-- C5 (amended): the import reports a format error, aborts and leaves the
state unmutated for a payload matching neither recognised format, and for a
weights payload with an empty layer list; but chain consistency is not
validated — every non-empty sequence of layer records imports successfully,
replacing the network, architecture and declared sizes with the records as
given. -/
theorem import_weights_error_handling (bm : ℚ → ℚ → ℚ) (o : ImportObj)
    (st : AppState) :
    (o.layers = none → o.architecture = none → o.weights = none →
      handleImportJSON bm o st = .error "Formato non riconosciuto") ∧
    (o.layers = some [] → handleImportJSON bm o st = .error "layers vuoto") ∧
    (∀ ls, o.layers = some ls → ls ≠ [] →
      (handleImportJSON bm o st).toOption.isSome = true) := by
  refine ⟨?_, ?_, ?_⟩
  · intro h1 h2 h3
    simp [handleImportJSON, h1, h2, h3]
  · intro h
    simp [handleImportJSON, h, importWeightsFmt]
  · intro ls hls hne
    cases ls with
    | nil => exact absurd rfl hne
    | cons L0 rest => simp [handleImportJSON, hls, importWeightsFmt, Except.toOption]

/-- C5 witness: the unrecognised-payload branch at a concrete empty payload
and prior state. -/
theorem import_weights_error_handling_witness :
    (ImportObj.mk none none none).layers = none ∧
    handleImportJSON bm0 ⟨none, none, none⟩ st5 = .error "Formato non riconosciuto" :=
  ⟨rfl, (import_weights_error_handling bm0 ⟨none, none, none⟩ st5).1 rfl rfl rfl⟩

/-- C6 counterexample: an architecture payload with one rebuilt layer and a
weights array of matching length 1 whose record has `b = null` (as exported
for every no-bias layer): the supplied `W = [[9]]` is NOT applied — the
rebuilt layer keeps its fresh `randn` weight matrix (2 rows, not 1) — so
"applied if and only if the lengths match" fails in the "if" direction. -/
theorem import_arch_null_bias_not_applied :
    [wrNB].length =
      (buildNetwork bm0 [archI, archONB]
        (archInputSize [archI, archONB] st5.inputSize)).1.length ∧
    ((handleImportJSON bm0 ⟨none, some [archI, archONB], some [wrNB]⟩ st5).toOption.map
      fun s => (s.layers.getD 0 dL0).W) = some (randn 2 1 rng42 bm0) ∧
    (randn 2 1 rng42 bm0).length = 2 ∧
    wrNB.W.length = 1 ∧
    ((handleImportJSON bm0 ⟨none, some [archI, archONB], some [wrNB]⟩ st5).toOption.map
      fun s => (s.layers.getD 0 dL0).W) ≠ some wrNB.W := by
  have hmap : ((handleImportJSON bm0 ⟨none, some [archI, archONB], some [wrNB]⟩
      st5).toOption.map fun s => (s.layers.getD 0 dL0).W) =
      some (randn 2 1 rng42 bm0) := rfl
  have hlen2 : (randn 2 1 rng42 bm0).length = 2 := genRows_length bm0 rng42 1 2 0
  refine ⟨by decide, hmap, hlen2, rfl, ?_⟩
  rw [hmap]
  intro hcontra
  have h1 : randn 2 1 rng42 bm0 = wrNB.W := Option.some.inj hcontra
  have h2 := congrArg List.length h1
  rw [hlen2] at h2
  simp [wrNB] at h2

/-- C6 (amended): an architecture-plus-weights import never throws; the
supplied weights array is consulted only when its length equals the rebuilt
layer count, and within a matching-length import each layer receives the
supplied `W`/`b` exactly when that record's `b` is non-null, keeping its
freshly initialized random weights otherwise (in particular whenever the
lengths differ no layer is touched — no partial assignment). -/
theorem import_arch_weights_application (bm : ℚ → ℚ → ℚ)
    (archRecs : List ArchRecord) (ws : List LayerRecord) (st : AppState) :
    handleImportJSON bm ⟨none, some archRecs, some ws⟩ st =
      .ok { st with
        inputSize := archInputSize archRecs st.inputSize,
        outputSize := (buildNetwork bm archRecs (archInputSize archRecs st.inputSize)).2,
        arch := archRecs,
        layers :=
          if ws.length =
              (buildNetwork bm archRecs (archInputSize archRecs st.inputSize)).1.length then
            applyImportedWeights ws
              (buildNetwork bm archRecs (archInputSize archRecs st.inputSize)).1
          else (buildNetwork bm archRecs (archInputSize archRecs st.inputSize)).1 } ∧
    (∀ layers i, i < List.length layers → ws.length = List.length layers →
      (ws.getD i wr0).b = none →
      (applyImportedWeights ws layers).getD i dL0 = layers.getD i dL0) ∧
    (∀ layers i, i < List.length layers → ws.length = List.length layers →
      (ws.getD i wr0).b ≠ none →
      (applyImportedWeights ws layers).getD i dL0 =
        { layers.getD i dL0 with
          W := (ws.getD i wr0).W, b := (ws.getD i wr0).b }) :=
  ⟨rfl, fun layers i hi hlen hb => applyImportedWeights_getD_none ws layers i hi hlen hb,
    fun layers i hi hlen hb => applyImportedWeights_getD_some ws layers i hi hlen hb⟩

/-- C6 witness: the per-record guard at concrete values — a `null`-bias
record of matching length leaves the layer untouched. -/
theorem import_arch_weights_application_witness :
    (0 : ℕ) < List.length [dL0] ∧ [wrNB].length = List.length [dL0] ∧
    ([wrNB].getD 0 wr0).b = none ∧
    (applyImportedWeights [wrNB] [dL0]).getD 0 dL0 = [dL0].getD 0 dL0 :=
  ⟨by decide, by decide, by decide,
    (import_arch_weights_application bm0 [] [wrNB] st5).2.1 [dL0] 0
      (by decide) (by decide) (by decide)⟩

/-- C7 counterexample: the CSV text `"1,2,3\n4,5"` has a second row with 2
columns against the first row's 3, yet parsing reports no error and the
prior model is overwritten: the declared input size becomes 2 (it was 7)
and the dataset is installed, the missing target of the short row becoming
an `undefined` (`none`) entry. -/
theorem csv_mismatch_silently_accepted :
    ((csvDataRows "1,2,3\n4,5").getD 0 []).length = 3 ∧
    ((csvDataRows "1,2,3\n4,5").getD 1 []).length = 2 ∧
    (handleCSVFile bm0 "1,2,3\n4,5" st5).inputSize = 2 ∧
    st5.inputSize = 7 ∧
    (handleCSVFile bm0 "1,2,3\n4,5" st5).dataX = [[some 1, some 2], [some 4, some 5]] ∧
    (handleCSVFile bm0 "1,2,3\n4,5" st5).dataY = [[some 3], [none]] := by
  refine ⟨by decide, by decide, by decide, by decide, by decide, by decide⟩

/-- C7 (amended): CSV parsing performs no column-count validation — even
when some row's column count differs from the first row's, the handler
reports nothing and unconditionally installs the parsed dataset and sizes,
slicing every row by the first row's column count. -/
theorem csv_no_validation_unconditional_update (bm : ℚ → ℚ → ℚ) (text : String)
    (st : AppState)
    (hmm : ∃ i, i < (csvDataRows text).length ∧
      ((csvDataRows text).getD i []).length ≠ ((csvDataRows text).getD 0 []).length) :
    (handleCSVFile bm text st).inputSize = ((csvDataRows text).headD []).length - 1 ∧
    (handleCSVFile bm text st).dataX =
      (csvDataRows text).map (fun r => r.take (((csvDataRows text).headD []).length - 1)) ∧
    (handleCSVFile bm text st).dataY =
      (csvDataRows text).map
        (fun r => [r.getD (((csvDataRows text).headD []).length - 1) none]) :=
  ⟨rfl, rfl, rfl⟩

/-- C7 witness: the amended theorem at the concrete mismatched text. -/
theorem csv_no_validation_unconditional_update_witness :
    ((1 : ℕ) < (csvDataRows "1,2,3\n4,5").length ∧
      ((csvDataRows "1,2,3\n4,5").getD 1 []).length ≠
        ((csvDataRows "1,2,3\n4,5").getD 0 []).length) ∧
    ((handleCSVFile bm0 "1,2,3\n4,5" st5).inputSize =
        ((csvDataRows "1,2,3\n4,5").headD []).length - 1 ∧
      (handleCSVFile bm0 "1,2,3\n4,5" st5).dataX =
        (csvDataRows "1,2,3\n4,5").map
          (fun r => r.take (((csvDataRows "1,2,3\n4,5").headD []).length - 1)) ∧
      (handleCSVFile bm0 "1,2,3\n4,5" st5).dataY =
        (csvDataRows "1,2,3\n4,5").map
          (fun r => [r.getD (((csvDataRows "1,2,3\n4,5").headD []).length - 1) none])) :=
  ⟨⟨by decide, by decide⟩,
    csv_no_validation_unconditional_update bm0 "1,2,3\n4,5" st5
      ⟨1, by decide, by decide⟩⟩

/-- C8: parsing the XOR CSV text yields `inputSize = 2` and the four
feature/target rows of the spec; and for every CSV text whose first
non-empty line contains an alphabetic character, that line is treated as a
header and skipped before parsing. -/
theorem csv_xor_parse_and_header_skip :
    (handleCSVFile bm0 csvXorText st5).inputSize = 2 ∧
    (handleCSVFile bm0 csvXorText st5).dataX =
      [[some 0, some 0], [some 0, some 1], [some 1, some 0], [some 1, some 1]] ∧
    (handleCSVFile bm0 csvXorText st5).dataY =
      [[some 0], [some 1], [some 1], [some 0]] ∧
    (csvDataRows csvXorText).length = 4 ∧
    (∀ text l0 rest, csvLines text = l0 :: rest → containsAlpha l0 = true →
      csvDataRows text = parseNumRows rest) := by
  refine ⟨by decide, by decide, by decide, by decide, ?_⟩
  intro text l0 rest hl ha
  unfold csvDataRows
  rw [hl]
  simp [ha]

/-- C8 witness: the header-skip clause at a concrete text with an
alphabetic first line. -/
theorem csv_header_skip_witness :
    csvLines "a,b\n1,2" = [['a', ',', 'b'], ['1', ',', '2']] ∧
    containsAlpha ['a', ',', 'b'] = true ∧
    csvDataRows "a,b\n1,2" = parseNumRows [['1', ',', '2']] :=
  ⟨by decide, by decide,
    csv_xor_parse_and_header_skip.2.2.2.2 "a,b\n1,2" ['a', ',', 'b']
      [['1', ',', '2']] (by decide) (by decide)⟩
